import Mathlib

/-
Verification of the T2 gulp-synchronization and trigger-decision loop
(T2/socket.py).

The embedding models Python strings as lists of characters, so that every
definition is executable by the kernel.  The per-cycle body of the
while-loop of parse_socket is modelled as a pure function from the list of
payloads read from the accepted connections (one payload per accepted
connection, in socket order) to the cycle outcome.  External collaborators
(cluster_heimdall, triggering, the etcd store) appear only at their
interface boundary: candidate tables are arbitrary inputs, and the store
writes are recorded in the outcome.
-/

namespace T2

/-- Python str, modelled as a list of characters. -/
abbrev Str := List Char

/-- Coerce a Lean string literal to the character-list model. -/
def str (s : String) : Str := s.toList

/-- ASCII whitespace as stripped by the Python int constructor. -/
def isWs (c : Char) : Bool :=
  c = ' ' || c = '\t' || c = '\n' || c = '\r' || c = '\x0b' || c = '\x0c'

/-- Strip leading and trailing whitespace, as Python str.strip does
before int parses the token. -/
def trimWs (cs : Str) : Str :=
  ((cs.dropWhile isWs).reverse.dropWhile isWs).reverse

/-- Numeric value of a decimal digit character. -/
def digitVal (c : Char) : ℕ := c.toNat - 48

/-- Digit run after the first digit, following the CPython rule that an
underscore may appear only between two digits.  The accumulator holds the
value of the digits consumed so far. -/
def pyNatCore : Str → ℕ → Option ℕ
  | [], acc => some acc
  | '_' :: c :: cs, acc =>
      if c.isDigit then pyNatCore cs (acc * 10 + digitVal c) else none
  | ['_'], _ => none
  | c :: cs, acc =>
      if c.isDigit then pyNatCore cs (acc * 10 + digitVal c) else none

/-- Unsigned decimal literal: at least one digit, underscores only between
digits. -/
def pyNat : Str → Option ℕ
  | [] => none
  | c :: cs => if c.isDigit then pyNatCore cs (digitVal c) else none

/-- Model of the CPython int constructor on an ASCII text token: strip
surrounding whitespace, optional sign, then a decimal digit run.
Returns none where int raises ValueError. -/
def pyInt (s : Str) : Option ℤ :=
  match trimWs s with
  | '+' :: cs => (pyNat cs).map (fun n => (n : ℤ))
  | '-' :: cs => (pyNat cs).map (fun n => -(n : ℤ))
  | cs => (pyNat cs).map (fun n => (n : ℤ))

/-- Python str.split on a single newline: every occurrence splits, empty
parts are kept, and the result is never the empty list. -/
def splitNL : Str → List Str
  | [] => [[]]
  | c :: cs =>
    if c = '\n' then [] :: splitNL cs
    else
      match splitNL cs with
      | [] => [[c]]
      | p :: ps => (c :: p) :: ps

/-- Python newline join of a list of lines. -/
def joinNL : List Str → Str
  | [] => []
  | [l] => l
  | l :: ls => l ++ '\n' :: joinNL ls

/-- Per-connection processing of parse_socket (socket.py lines 119-137):
split the payload on newlines, parse the first line as the integer batch
id (skipping the client when that fails), and contribute the newline-join
of the remaining lines to the merged body only when there are at least two
remaining lines and the first of them is non-empty.
Returns (parsed batch id, contribution to candsfile). -/
def processClient (cf : Str) : Option ℤ × Str :=
  match splitNL cf with
  | [] => (none, [])
  | g :: lines =>
    match pyInt g with
    | none => (none, [])
    | some gulp =>
      if 1 < lines.length ∧ 0 < (lines.headD []).length then
        (some gulp, joinNL lines)
      else
        (some gulp, [])

/-- The list gulps of parse_socket: batch ids of the clients whose first
line parsed as an integer, in connection order. -/
def gulps (cfs : List Str) : List ℤ :=
  cfs.filterMap (fun cf => (processClient cf).fst)

/-- Concatenation of the per-client contributions, in connection order:
the candsfile accumulator of parse_socket. -/
def candsfile : List Str → Str
  | [] => []
  | cf :: cfs => (processClient cf).snd ++ candsfile cfs

/-- Outcome of one cycle of the parse_socket while-loop, for the part of
the loop the claims are about. -/
inductive Outcome where
  /-- fewer parsed ids than accepted connections: skip the cycle. -/
  | incomplete : Outcome
  /-- more than one distinct parsed id: rebuild the listening sockets. -/
  | divergent : Outcome
  /-- ids agree but the merged body is the empty or lone-newline string:
  skip the cycle. -/
  | emptyGulp : ℤ → Outcome
  /-- ids agree and the body is handed to parse_candsfile and
  cluster_and_plot. -/
  | forwarded : ℤ → Str → Outcome
deriving DecidableEq

/-- One cycle of parse_socket after the accept/read phase (socket.py
lines 117-212), as a function of the payloads of the accepted
connections.  Returns none only in the unreachable case where the
agreeing gulp set is empty, where the Python code would raise KeyError on
set(gulps).pop(). -/
def cycleOutcome (cfs : List Str) : Option Outcome :=
  if (gulps cfs).length ≠ cfs.length then some Outcome.incomplete
  else if 1 < ((gulps cfs).dedup).length then some Outcome.divergent
  else if gulps cfs = [] then none
  else
    if candsfile cfs = str "\n" ∨ candsfile cfs = str "" then
      some (Outcome.emptyGulp ((gulps cfs).headD 0))
    else
      some (Outcome.forwarded ((gulps cfs).headD 0) (candsfile cfs))

/-- The status code written by gulp_status at the end of the cycle
(socket.py lines 142, 165, 178, 210, 212 and 407-425).  The overflow flag
says whether cluster_and_plot raised OverflowError on a forwarded body. -/
def statusOf (overflow : Bool) : Outcome → ℕ
  | Outcome.incomplete => 1
  | Outcome.divergent => 2
  | Outcome.emptyGulp _ => 0
  | Outcome.forwarded _ _ => if overflow then 3 else 0

/-- Whether the cycle publishes the second heartbeat to
/mon/service/T2gulp (socket.py lines 167-172): the write sits in the else
branch of the divergence test, before the empty-body test. -/
def t2gulpPublished : Outcome → Bool
  | Outcome.incomplete => false
  | Outcome.divergent => false
  | Outcome.emptyGulp _ => true
  | Outcome.forwarded _ _ => true

/-- The rebuild loop after a divergent gulp (socket.py lines 153-164):
every port is tried; a failed bind is logged and skipped, a successful
bind is kept.  bindOk is the environment telling which binds succeed. -/
def rebuildSockets (bindOk : ℕ → Bool) : List ℕ → List ℕ
  | [] => []
  | p :: ps =>
      if bindOk p then p :: rebuildSockets bindOk ps
      else rebuildSockets bindOk ps

/-- The initial socket build at the top of the while-loop (socket.py
lines 91-96): bind is called with no exception handler, so the first
failing bind raises OSError out of parse_socket; the error value records
the failing port. -/
def initialBuild (bindOk : ℕ → Bool) : List ℕ → Except ℕ (List ℕ)
  | [] => Except.ok []
  | p :: ps =>
      if bindOk p then (initialBuild bindOk ps).map (fun l => p :: l)
      else Except.error p

/-- Listening sockets carried into the next cycle: only the divergent
outcome tears down and rebuilds them; every other outcome leaves ss
untouched. -/
def nextSockets (bindOk : ℕ → Bool) (ports ss : List ℕ) : Outcome → List ℕ
  | Outcome.divergent => rebuildSockets bindOk ports
  | _ => ss

/-- Blankness in the words of the specification: the string is empty or
consists of whitespace characters only. -/
def specBlank (cs : Str) : Bool := cs.all Char.isWhitespace

/-! ### Helper lemmas about the gulp list -/

lemma length_filterMap_eq_iff {α β : Type} (f : α → Option β) :
    ∀ l : List α, (l.filterMap f).length = l.length ↔ ∀ a ∈ l, (f a).isSome = true := by
  intro l
  induction l with
  | nil => simp
  | cons a l ih =>
    cases h : f a with
    | none =>
      rw [List.filterMap_cons_none h]
      simp only [List.length_cons]
      have hle := List.length_filterMap_le f l
      constructor
      · intro hlen; omega
      · intro hall
        have := hall a (List.mem_cons_self a l)
        rw [h] at this
        simp at this
    | some b =>
      rw [List.filterMap_cons_some h]
      simp only [List.length_cons, Nat.add_right_cancel_iff]
      constructor
      · intro hlen a2 ha2
        rcases List.mem_cons.mp ha2 with rfl | hm
        · rw [h]; rfl
        · exact (ih.mp hlen) a2 hm
      · intro hall
        exact ih.mpr (fun a2 hm => hall a2 (List.mem_cons_of_mem _ hm))

lemma gulps_length_le (cfs : List Str) : (gulps cfs).length ≤ cfs.length :=
  List.length_filterMap_le _ _

lemma gulps_length_eq_iff (cfs : List Str) :
    (gulps cfs).length = cfs.length ↔
      ∀ cf ∈ cfs, ((processClient cf).fst).isSome = true := by
  exact length_filterMap_eq_iff (fun cf => (processClient cf).fst) cfs

lemma gulps_ne_nil (cfs : List Str) (hne : cfs ≠ [])
    (hcomp : (gulps cfs).length = cfs.length) : gulps cfs ≠ [] := by
  have h0 : 0 < cfs.length := List.length_pos.mpr hne
  exact List.length_pos.mp (by omega)

/-! ### Claim C4 -/

/-- Claim C4 (confirmed): whenever the number of sources that produced a
parseable batch id is smaller than the number of accepted connections,
the cycle publishes status code 1, is discarded, and the listening
sockets pass to the next cycle untouched. -/
theorem incomplete_gulp_skip (cfs : List Str) (ov : Bool)
    (bindOk : ℕ → Bool) (ports ss : List ℕ)
    (hlt : (gulps cfs).length < cfs.length) :
    cycleOutcome cfs = some Outcome.incomplete ∧
      statusOf ov Outcome.incomplete = 1 ∧
      nextSockets bindOk ports ss Outcome.incomplete = ss := by
  refine ⟨?_, rfl, rfl⟩
  unfold cycleOutcome
  rw [if_pos (by omega)]

/-- Witness for claim C4 at a concrete cycle: one connection whose first
line does not parse as an integer. -/
theorem incomplete_gulp_skip_witness :
    cycleOutcome [str "nope\na\nb"] = some Outcome.incomplete ∧
      statusOf false Outcome.incomplete = 1 ∧
      nextSockets (fun _ => true) [9094] [1] Outcome.incomplete = [1] :=
  incomplete_gulp_skip [str "nope\na\nb"] false (fun _ => true) [9094] [1] (by decide)

/-! ### Claim C2 -/

/-- Counterexample to claim C2: a complete, agreeing cycle whose merged
body is empty publishes status code 0, not a non-zero empty-gulp code. -/
theorem empty_gulp_status_cex :
    cycleOutcome [str "42\n"] = some (Outcome.emptyGulp 42) ∧
      statusOf false (Outcome.emptyGulp 42) = 0 := by decide

/-- Claim C2 (amended): when all parseable ids agree and the merged body
is the empty string or the lone newline string, the cycle publishes
status code 0 and is discarded with the listening sockets untouched. -/
theorem empty_gulp_discard (cfs : List Str) (ov : Bool)
    (bindOk : ℕ → Bool) (ports ss : List ℕ) (hne : cfs ≠ [])
    (hcomp : (gulps cfs).length = cfs.length)
    (hagree : (gulps cfs).dedup.length ≤ 1)
    (hbody : candsfile cfs = str "" ∨ candsfile cfs = str "\n") :
    ∃ g, cycleOutcome cfs = some (Outcome.emptyGulp g) ∧
      statusOf ov (Outcome.emptyGulp g) = 0 ∧
      nextSockets bindOk ports ss (Outcome.emptyGulp g) = ss := by
  have hgs : gulps cfs ≠ [] := gulps_ne_nil cfs hne hcomp
  refine ⟨(gulps cfs).headD 0, ?_, rfl, rfl⟩
  unfold cycleOutcome
  rw [if_neg (by omega), if_neg (by omega), if_neg hgs, if_pos hbody.symm]

/-- Witness for amended claim C2 at the header-only payload. -/
theorem empty_gulp_discard_witness :
    ∃ g, cycleOutcome [str "42\n"] = some (Outcome.emptyGulp g) ∧
      statusOf false (Outcome.emptyGulp g) = 0 ∧
      nextSockets (fun _ => true) [9094] [1] (Outcome.emptyGulp g) = [1] :=
  empty_gulp_discard [str "42\n"] false (fun _ => true) [9094] [1]
    (by decide) (by decide) (by decide) (by decide)

/-! ### Claim C3 -/

/-- Counterexample to claim C3: a cycle that receives two distinct
parseable batch ids but also an unparseable client is handled by the
incomplete branch, so it publishes status 1 and leaves the listening
sockets in place instead of rebuilding them. -/
theorem divergent_incomplete_cex :
    1 < (gulps [str "1\na\nb", str "2\na\nb", str "x"]).dedup.length ∧
      cycleOutcome [str "1\na\nb", str "2\na\nb", str "x"] = some Outcome.incomplete ∧
      statusOf false Outcome.incomplete = 1 ∧
      nextSockets (fun _ => true) [9094, 9095, 9096] [1, 2, 3] Outcome.incomplete
        = [1, 2, 3] := by decide

/-- Claim C3 (amended): when every accepted connection produced a
parseable batch id and more than one distinct id was received, no batch
is forwarded, status code 2 is published, and the listening sockets are
all closed and rebuilt from the port list before the next accept. -/
theorem divergent_resync (cfs : List Str) (ov : Bool)
    (bindOk : ℕ → Bool) (ports ss : List ℕ)
    (hcomp : (gulps cfs).length = cfs.length)
    (hdiv : 1 < (gulps cfs).dedup.length) :
    cycleOutcome cfs = some Outcome.divergent ∧
      statusOf ov Outcome.divergent = 2 ∧
      nextSockets bindOk ports ss Outcome.divergent = rebuildSockets bindOk ports ∧
      ∀ g body, cycleOutcome cfs ≠ some (Outcome.forwarded g body) := by
  have h1 : cycleOutcome cfs = some Outcome.divergent := by
    unfold cycleOutcome
    rw [if_neg (by omega), if_pos hdiv]
  refine ⟨h1, rfl, rfl, fun g body h => ?_⟩
  rw [h1] at h
  simp at h

/-- Witness for amended claim C3 at a concrete divergent cycle. -/
theorem divergent_resync_witness :
    cycleOutcome [str "1\na\nb", str "2\na\nb"] = some Outcome.divergent ∧
      statusOf false Outcome.divergent = 2 ∧
      nextSockets (fun _ => true) [9094, 9095] [1, 2] Outcome.divergent
          = rebuildSockets (fun _ => true) [9094, 9095] ∧
      ∀ g body,
        cycleOutcome [str "1\na\nb", str "2\na\nb"] ≠ some (Outcome.forwarded g body) :=
  divergent_resync [str "1\na\nb", str "2\na\nb"] false (fun _ => true)
    [9094, 9095] [1, 2] (by decide) (by decide)

/-! ### Claim C1 -/

/-- Counterexample to claim C1: a complete agreeing cycle whose merged
body consists of whitespace only (a space, a newline, a space) is still
forwarded to the Decision Engine pipeline, so non-blankness in the sense
of the specification is not necessary for forwarding. -/
theorem blank_body_forwarded_cex :
    cycleOutcome [str "5\n \n "] = some (Outcome.forwarded 5 (str " \n ")) ∧
      specBlank (str " \n ") = true := by decide

/-- Claim C1 (amended): the merged body is handed to the Decision Engine
pipeline exactly when every accepted connection parsed to a batch id, all
parsed ids are identical, and the merged body is neither the empty string
nor the lone newline string. -/
theorem forwarded_iff (cfs : List Str) (hne : cfs ≠ []) :
    (∃ g body, cycleOutcome cfs = some (Outcome.forwarded g body)) ↔
      ((∀ cf ∈ cfs, ((processClient cf).fst).isSome = true) ∧
        (gulps cfs).dedup.length = 1 ∧
        candsfile cfs ≠ str "" ∧ candsfile cfs ≠ str "\n") := by
  constructor
  · rintro ⟨g, body, hout⟩
    unfold cycleOutcome at hout
    by_cases h1 : (gulps cfs).length ≠ cfs.length
    · rw [if_pos h1] at hout; simp at hout
    rw [if_neg h1] at hout
    by_cases h2 : 1 < (gulps cfs).dedup.length
    · rw [if_pos h2] at hout; simp at hout
    rw [if_neg h2] at hout
    by_cases h3 : gulps cfs = []
    · rw [if_pos h3] at hout; simp at hout
    rw [if_neg h3] at hout
    by_cases h4 : candsfile cfs = str "\n" ∨ candsfile cfs = str ""
    · rw [if_pos h4] at hout; simp at hout
    rw [if_neg h4] at hout
    push_neg at h4
    have hdedup : (gulps cfs).dedup ≠ [] := by
      rw [Ne, List.dedup_eq_nil]; exact h3
    have hlen := List.length_pos.mpr hdedup
    exact ⟨(gulps_length_eq_iff cfs).mp (not_not.mp h1), by omega, h4.2, h4.1⟩
  · rintro ⟨hall, hded, hb1, hb2⟩
    have hcomp : (gulps cfs).length = cfs.length := (gulps_length_eq_iff cfs).mpr hall
    have hgs : gulps cfs ≠ [] := gulps_ne_nil cfs hne hcomp
    refine ⟨(gulps cfs).headD 0, candsfile cfs, ?_⟩
    unfold cycleOutcome
    rw [if_neg (by omega), if_neg (by omega), if_neg hgs,
      if_neg (by push_neg; exact ⟨hb2, hb1⟩)]

/-- Witness for amended claim C1: a well-formed single-source cycle is
forwarded. -/
theorem forwarded_iff_witness :
    ∃ g body, cycleOutcome [str "7\na\nb"] = some (Outcome.forwarded g body) :=
  (forwarded_iff [str "7\na\nb"] (by decide)).mpr (by decide)

/-! ### Claim C9 -/

/-- Counterexample to claim C9: a cycle whose batch is discarded for
having an empty merged body still publishes the second heartbeat, because
the write to /mon/service/T2gulp happens before the empty-body test. -/
theorem t2gulp_empty_cex :
    cycleOutcome [str "42\n"] = some (Outcome.emptyGulp 42) ∧
      t2gulpPublished (Outcome.emptyGulp 42) = true ∧
      candsfile [str "42\n"] = str "" := by decide

/-- Claim C9 (amended): the second heartbeat is published exactly when
every accepted connection parsed to a batch id and all ids agree,
regardless of whether the merged body then turns out to be empty;
incomplete and divergent cycles never publish it. -/
theorem t2gulp_published_iff (cfs : List Str) (hne : cfs ≠ []) :
    (∃ o, cycleOutcome cfs = some o ∧ t2gulpPublished o = true) ↔
      ((gulps cfs).length = cfs.length ∧ (gulps cfs).dedup.length = 1) := by
  constructor
  · rintro ⟨o, hout, hpub⟩
    unfold cycleOutcome at hout
    by_cases h1 : (gulps cfs).length ≠ cfs.length
    · rw [if_pos h1] at hout
      injection hout with h
      subst h
      simp [t2gulpPublished] at hpub
    rw [if_neg h1] at hout
    by_cases h2 : 1 < (gulps cfs).dedup.length
    · rw [if_pos h2] at hout
      injection hout with h
      subst h
      simp [t2gulpPublished] at hpub
    rw [if_neg h2] at hout
    by_cases h3 : gulps cfs = []
    · rw [if_pos h3] at hout; simp at hout
    rw [if_neg h3] at hout
    have hdedup : (gulps cfs).dedup ≠ [] := by
      rw [Ne, List.dedup_eq_nil]; exact h3
    have hlen := List.length_pos.mpr hdedup
    exact ⟨not_not.mp h1, by omega⟩
  · rintro ⟨hcomp, hded⟩
    have hgs : gulps cfs ≠ [] := gulps_ne_nil cfs hne hcomp
    unfold cycleOutcome
    rw [if_neg (by omega), if_neg (by omega), if_neg hgs]
    by_cases h4 : candsfile cfs = str "\n" ∨ candsfile cfs = str ""
    · rw [if_pos h4]; exact ⟨_, rfl, rfl⟩
    · rw [if_neg h4]; exact ⟨_, rfl, rfl⟩

/-- Witness for amended claim C9 at a forwarded cycle. -/
theorem t2gulp_published_iff_witness :
    ∃ o, cycleOutcome [str "8\na\nb"] = some o ∧ t2gulpPublished o = true :=
  (t2gulp_published_iff [str "8\na\nb"] (by decide)).mpr (by decide)

/-! ### Decision Engine model (cluster_and_plot) -/

/-- One row of the clustered candidate table: the columns that
cluster_and_plot reads are the signal-to-noise ratio, the boxcar index,
and the cluster id assigned by cluster_data.  Real arithmetic is
modelled exactly over the rationals. -/
structure CandRow where
  snr : ℚ
  ibox : ℕ
  cl : ℤ
deriving DecidableEq

/-- Number of peak rows whose boxcar index is exactly 64, the maximum
supported width (socket.py line 309). -/
def ibox64Count (tab2 : List CandRow) : ℕ :=
  (tab2.filter (fun r => decide (r.ibox = 64))).length

/-- The width-based false-positive flag of cluster_and_plot (socket.py
lines 306-313): set when the peak table is non-empty, the fraction of
peak rows at boxcar 64 is strictly greater than 0.85, and there are more
than 15 peak rows. -/
def ibox64Filter (tab2 : List CandRow) : Bool :=
  if tab2.length ≠ 0 then
    decide ((0.85 : ℚ) < (ibox64Count tab2 : ℚ) / (tab2.length : ℚ) ∧ 15 < tab2.length)
  else false

/-- Whether cluster_and_plot reaches the trigger and naming step
dump_cluster_results_json (socket.py line 331): an output root is
configured, the filtered table is non-empty, and the batch is not
boxcar-saturation filtered. -/
def triggerInvoked (outroot : Option Str) (tab3 tab2 : List CandRow) : Bool :=
  outroot.isSome && decide (tab3.length ≠ 0) && !(ibox64Filter tab2)

/-- Maximum signal-to-noise over the candidate table, as numpy max
(socket.py line 296). -/
def maxsnrQ : List CandRow → ℚ
  | [] => 0
  | [r] => r.snr
  | r :: rs => max r.snr (maxsnrQ rs)

/-- The first row attaining the maximum signal-to-noise (socket.py
line 297). -/
def maxRow (tab : List CandRow) : Option CandRow :=
  tab.find? (fun r => decide (r.snr = maxsnrQ tab))

/-- The cluster id of the first maximum row (socket.py line 298). -/
def clMax (tab : List CandRow) : ℤ :=
  ((maxRow tab).map CandRow.cl).getD 0

/-- The rows of the cluster holding the maximum row (the selection
tab cl equal to cl_max of socket.py lines 299-303). -/
def clMembers (tab : List CandRow) : List CandRow :=
  tab.filter (fun r => decide (r.cl = clMax tab))

/-- Members of that cluster with boxcar index at least 32. -/
def wideMembers (tab : List CandRow) : List CandRow :=
  (clMembers tab).filter (fun r => decide (32 ≤ r.ibox))

/-- The wide-member fraction as divided on socket.py line 299. -/
def fracWideRaw (tab : List CandRow) : ℚ :=
  ((wideMembers tab).length : ℚ) / ((clMembers tab).length : ℚ)

/-- The RFI-storm wide fraction: the division of line 299 followed by the
singleton override of socket.py lines 303-304. -/
def fracWide (tab : List CandRow) : ℚ :=
  if (clMembers tab).length = 1 then 0 else fracWideRaw tab

/-! ### Claim C5 -/

/-- Twenty peak rows of which exactly seventeen sit at boxcar 64: the
fraction is exactly 0.85. -/
def tab2Boundary : List CandRow :=
  List.replicate 17 ⟨9, 64, 0⟩ ++ List.replicate 3 ⟨9, 1, 0⟩

/-- Counterexample to claim C5: with more than 15 peak rows of which
exactly 85 percent sit at the maximum boxcar width, the filter does not
fire (the code compares strictly against 0.85) and the trigger step is
still invoked. -/
theorem ibox64_boundary_cex :
    15 < tab2Boundary.length ∧
      85 * tab2Boundary.length ≤ 100 * ibox64Count tab2Boundary ∧
      ibox64Filter tab2Boundary = false ∧
      triggerInvoked (some (str "/out")) [⟨9, 64, 0⟩] tab2Boundary = true := by
  have hcnt : ibox64Count tab2Boundary = 17 := by decide
  have hlen : tab2Boundary.length = 20 := by decide
  have hfilt : ibox64Filter tab2Boundary = false := by
    unfold ibox64Filter
    rw [if_pos (by omega)]
    rw [decide_eq_false_iff_not]
    rintro ⟨hfrac, _⟩
    rw [hcnt, hlen] at hfrac
    norm_num at hfrac
  refine ⟨by omega, by omega, hfilt, ?_⟩
  unfold triggerInvoked
  rw [hfilt]
  simp

/-- Claim C5 (amended): whenever there are more than 15 peak rows and
strictly more than 85 percent of them have boxcar index 64, the batch is
flagged boxcar-saturation filtered and the trigger and naming step is
not invoked, whatever the output root and the filtered table are. -/
theorem ibox64_filter_suppresses (tab2 : List CandRow)
    (h15 : 15 < tab2.length)
    (hcnt : 85 * tab2.length < 100 * ibox64Count tab2) :
    ibox64Filter tab2 = true ∧
      ∀ (outroot : Option Str) (tab3 : List CandRow),
        triggerInvoked outroot tab3 tab2 = false := by
  have hpos : (0 : ℚ) < (tab2.length : ℚ) := by
    exact_mod_cast (by omega : 0 < tab2.length)
  have hq : (85 : ℚ) * (tab2.length : ℚ) < 100 * (ibox64Count tab2 : ℚ) := by
    exact_mod_cast hcnt
  have hfrac : (0.85 : ℚ) < (ibox64Count tab2 : ℚ) / (tab2.length : ℚ) := by
    rw [lt_div_iff₀ hpos]
    linarith
  have hfilter : ibox64Filter tab2 = true := by
    unfold ibox64Filter
    rw [if_pos (by omega)]
    exact decide_eq_true ⟨hfrac, h15⟩
  refine ⟨hfilter, fun outroot tab3 => ?_⟩
  unfold triggerInvoked
  rw [hfilter]
  simp

/-- Witness for amended claim C5: sixteen peak rows all at boxcar 64. -/
theorem ibox64_filter_suppresses_witness :
    ibox64Filter (List.replicate 16 (⟨9, 64, 0⟩ : CandRow)) = true ∧
      ∀ (outroot : Option Str) (tab3 : List CandRow),
        triggerInvoked outroot tab3 (List.replicate 16 (⟨9, 64, 0⟩ : CandRow)) = false :=
  ibox64_filter_suppresses (List.replicate 16 (⟨9, 64, 0⟩ : CandRow))
    (by decide) (by decide)

/-! ### Claim C6 -/

lemma maxsnrQ_attained : ∀ tab : List CandRow, tab ≠ [] →
    ∃ r ∈ tab, r.snr = maxsnrQ tab := by
  intro tab
  induction tab with
  | nil => intro h; exact absurd rfl h
  | cons r rs ih =>
    intro _
    cases rs with
    | nil => exact ⟨r, List.mem_cons_self r [], rfl⟩
    | cons r2 rs2 =>
      have heq : maxsnrQ (r :: r2 :: rs2) = max r.snr (maxsnrQ (r2 :: rs2)) := rfl
      rcases max_choice r.snr (maxsnrQ (r2 :: rs2)) with h | h
      · exact ⟨r, List.mem_cons_self _ _, by rw [heq, h]⟩
      · obtain ⟨r0, hr0m, hr0⟩ := ih (by simp)
        exact ⟨r0, List.mem_cons_of_mem _ hr0m, by rw [heq, h]; exact hr0⟩

lemma maxRow_isSome (tab : List CandRow) (hne : tab ≠ []) :
    ∃ r0, maxRow tab = some r0 := by
  obtain ⟨r, hm, hr⟩ := maxsnrQ_attained tab hne
  have hs : (tab.find? (fun r => decide (r.snr = maxsnrQ tab))).isSome = true :=
    List.find?_isSome.mpr ⟨r, hm, by simp [hr]⟩
  exact Option.isSome_iff_exists.mp hs

/-- Claim C6 (confirmed): the cluster of the globally maximum
signal-to-noise row always has at least one member, so the wide-fraction
division never has a zero denominator; and whenever that cluster has
exactly one member the final wide fraction is exactly zero. -/
theorem frac_wide_singleton (tab : List CandRow) (hne : tab ≠ []) :
    1 ≤ (clMembers tab).length ∧
      ((clMembers tab).length = 1 → fracWide tab = 0) := by
  obtain ⟨r0, hr0⟩ := maxRow_isSome tab hne
  have hmem : r0 ∈ clMembers tab := by
    refine List.mem_filter.mpr ⟨List.mem_of_find?_eq_some hr0, ?_⟩
    simp [clMax, hr0]
  refine ⟨List.length_pos_of_mem hmem, fun h1 => ?_⟩
  unfold fracWide
  rw [if_pos h1]

/-- Witness for claim C6 at a one-row table. -/
theorem frac_wide_singleton_witness :
    1 ≤ (clMembers [(⟨5, 40, 7⟩ : CandRow)]).length ∧
      fracWide [(⟨5, 40, 7⟩ : CandRow)] = 0 := by
  have h := frac_wide_singleton [(⟨5, 40, 7⟩ : CandRow)] (by decide)
  exact ⟨h.1, h.2 (by decide)⟩

/-! ### Claim C7 -/

/-- The append of the module-level deque nbeams_queue with maxlen 10
(socket.py lines 37-39 and 290-291): a value is added on the right and,
when the queue already holds ten entries, the leftmost entry is
evicted. -/
def pushNb (q : List ℕ) (x : ℕ) : List ℕ :=
  if q.length < 10 then q ++ [x] else q.tail ++ [x]

/-- A sequence of appends, one per processed batch. -/
def pushAll (q : List ℕ) (xs : List ℕ) : List ℕ := xs.foldl pushNb q

lemma pushAll_eq_drop : ∀ (xs q : List ℕ), q.length ≤ 10 →
    pushAll q xs = (q ++ xs).drop (q.length + xs.length - 10) := by
  intro xs
  induction xs with
  | nil =>
    intro q hq
    simp [pushAll, Nat.sub_eq_zero_of_le hq]
  | cons x xs ih =>
    intro q hq
    have hstep : pushAll q (x :: xs) = pushAll (pushNb q x) xs := rfl
    rw [hstep]
    by_cases hlt : q.length < 10
    · have hp : pushNb q x = q ++ [x] := if_pos hlt
      have hq2 : (pushNb q x).length ≤ 10 := by
        rw [hp]; simp; omega
      rw [ih _ hq2, hp]
      have e1 : (q ++ [x]) ++ xs = q ++ x :: xs := by simp
      have e2 : (q ++ [x]).length + xs.length - 10 = q.length + (x :: xs).length - 10 := by
        simp; omega
      rw [e1, e2]
    · have h10 : q.length = 10 := by omega
      cases q with
      | nil => simp at h10
      | cons a t =>
        have ht9 : t.length = 9 := by simp at h10; omega
        have hp : pushNb (a :: t) x = t ++ [x] := by
          unfold pushNb
          rw [if_neg hlt]
          rfl
        have hlen : (t ++ [x]).length ≤ 10 := by simp [ht9]
        rw [hp, ih _ hlen]
        have e1 : (t ++ [x]) ++ xs = t ++ x :: xs := by simp
        have e2 : (t ++ [x]).length + xs.length - 10 = xs.length := by
          simp [ht9]
        rw [e1, e2]
        have e3 : (a :: t) ++ x :: xs = a :: (t ++ x :: xs) := rfl
        have e4 : (a :: t).length + (x :: xs).length - 10 = xs.length + 1 := by
          simp [ht9]
        rw [e3, e4, List.drop_succ_cons]

/-- Claim C7 (confirmed): starting from the empty deque, the beam
activity window never exceeds ten entries; eleven appends leave exactly
the last ten pushed values; and the first pushed value, when distinct
from the later ones, is no longer present after the eleventh append. -/
theorem nbeams_queue_bounded :
    (∀ xs : List ℕ, (pushAll [] xs).length ≤ 10) ∧
      (∀ xs : List ℕ, xs.length = 11 → pushAll [] xs = xs.tail) ∧
      (∀ (x : ℕ) (xs : List ℕ), xs.length = 10 → x ∉ xs →
        x ∉ pushAll [] (x :: xs)) := by
  have hdrop : ∀ xs : List ℕ, pushAll [] xs = xs.drop (xs.length - 10) := by
    intro xs
    have h := pushAll_eq_drop xs [] (by simp)
    simpa using h
  refine ⟨?_, ?_, ?_⟩
  · intro xs
    rw [hdrop xs, List.length_drop]
    omega
  · intro xs h11
    rw [hdrop xs, h11]
    simp [List.drop_one]
  · intro x xs h10 hx
    rw [hdrop (x :: xs)]
    have h11 : (x :: xs).length = 11 := by simp [h10]
    rw [h11]
    simpa using hx

/-- Witness for claim C7: eleven concrete appends. -/
theorem nbeams_queue_bounded_witness :
    pushAll [] [1, 2, 3, 4, 5, 6, 7, 8, 9, 10, 11] = [2, 3, 4, 5, 6, 7, 8, 9, 10, 11] ∧
      (1 : ℕ) ∉ pushAll [] [1, 2, 3, 4, 5, 6, 7, 8, 9, 10, 11] := by
  have h := nbeams_queue_bounded.2.1 [1, 2, 3, 4, 5, 6, 7, 8, 9, 10, 11] (by decide)
  rw [h]
  exact ⟨rfl, by decide⟩

/-! ### Claim C8 -/

/-- Counterexample to claim C8: at the initial build site the bind call
has no exception handler, so a failing bind aborts the build with an
uncaught error instead of skipping the endpoint, while the rebuild site
skips it and carries on. -/
theorem initial_bind_fatal_cex :
    initialBuild (fun _ => false) [9094] = Except.error 9094 ∧
      rebuildSockets (fun _ => false) [9094] = [] :=
  ⟨rfl, rfl⟩

/-- Claim C8 (amended): only the rebuild after a divergent-gulp resync
retries binding per endpoint, skipping a failed bind and keeping the
rest; the initial build at loop entry propagates the first bind failure
as an uncaught error, and succeeds on all ports only when every bind
succeeds. -/
theorem bind_retry_split (bindOk : ℕ → Bool) (ports : List ℕ) :
    rebuildSockets bindOk ports = ports.filter bindOk ∧
      ((∀ p ∈ ports, bindOk p = true) → initialBuild bindOk ports = Except.ok ports) ∧
      ((∃ p ∈ ports, bindOk p = false) →
        ∃ q ∈ ports, bindOk q = false ∧ initialBuild bindOk ports = Except.error q) := by
  refine ⟨?_, ?_, ?_⟩
  · induction ports with
    | nil => rfl
    | cons p ps ih =>
      cases hp : bindOk p with
      | false => simp [rebuildSockets, List.filter_cons, hp, ih]
      | true => simp [rebuildSockets, List.filter_cons, hp, ih]
  · induction ports with
    | nil => intro _; rfl
    | cons p ps ih =>
      intro hall
      have hp : bindOk p = true := hall p (List.mem_cons_self _ _)
      have hrec := ih (fun q hq => hall q (List.mem_cons_of_mem _ hq))
      unfold initialBuild
      rw [if_pos hp, hrec]
      rfl
  · induction ports with
    | nil =>
      rintro ⟨p, hp, _⟩
      exact absurd hp (List.not_mem_nil p)
    | cons p ps ih =>
      rintro ⟨q, hq, hqf⟩
      cases hp : bindOk p with
      | false =>
        refine ⟨p, List.mem_cons_self _ _, hp, ?_⟩
        unfold initialBuild
        rw [if_neg (by simp [hp])]
      | true =>
        have hqps : q ∈ ps := by
          rcases List.mem_cons.mp hq with rfl | h
          · rw [hp] at hqf; exact absurd hqf (by simp)
          · exact h
        obtain ⟨q2, hq2m, hq2f, hq2e⟩ := ih ⟨q, hqps, hqf⟩
        refine ⟨q2, List.mem_cons_of_mem _ hq2m, hq2f, ?_⟩
        unfold initialBuild
        rw [if_pos hp, hq2e]
        rfl

/-- Witness for amended claim C8 at concrete ports: port 9095 fails to
bind, the rebuild keeps 9094 alone, a fully successful initial build
returns both ports, and an initial build containing the bad port
errors. -/
theorem bind_retry_split_witness :
    rebuildSockets (fun p => decide (p ≠ 9095)) [9094, 9095] = [9094] ∧
      initialBuild (fun _ => true) [9094, 9095] = Except.ok [9094, 9095] ∧
      ∃ q ∈ [9094, 9095], (fun p => decide (p ≠ 9095)) q = false ∧
        initialBuild (fun p => decide (p ≠ 9095)) [9094, 9095] = Except.error q := by
  refine ⟨?_, ?_, ?_⟩
  · rw [(bind_retry_split (fun p => decide (p ≠ 9095)) [9094, 9095]).1]
    decide
  · exact (bind_retry_split (fun _ => true) [9094, 9095]).2.1 (by decide)
  · exact (bind_retry_split (fun p => decide (p ≠ 9095)) [9094, 9095]).2.2
      ⟨9095, by decide, by decide⟩

/-! ### Claim C10 -/

lemma joinNL_cons_cons (l0 l1 : Str) (ls : List Str) :
    joinNL (l0 :: l1 :: ls) = l0 ++ '\n' :: joinNL (l1 :: ls) := rfl

/-- Claim C10 (confirmed): a payload whose first line parses as an
integer always counts toward cross-source validation, and its remaining
lines are appended to the merged body exactly when there are at least
two of them and the first is non-empty; when appended, the text is the
newline join of all remaining lines. -/
theorem client_contribution (cf g : Str) (lines : List Str) (n : ℤ)
    (hsplit : splitNL cf = g :: lines) (hparse : pyInt g = some n) :
    (processClient cf).fst = some n ∧
      ((processClient cf).snd ≠ [] ↔
        (1 < lines.length ∧ lines.headD [] ≠ [])) ∧
      ((processClient cf).snd ≠ [] → (processClient cf).snd = joinNL lines) := by
  have hpc : processClient cf =
      if 1 < lines.length ∧ 0 < (lines.headD []).length then
        ((some n : Option ℤ), joinNL lines)
      else ((some n : Option ℤ), ([] : Str)) := by
    unfold processClient
    rw [hsplit]
    simp only [hparse]
  by_cases hcond : 1 < lines.length ∧ 0 < (lines.headD []).length
  · rw [hpc, if_pos hcond]
    have hlines : lines ≠ [] := by
      intro h
      rw [h] at hcond
      simp at hcond
    obtain ⟨l0, rest, rfl⟩ := List.exists_cons_of_ne_nil hlines
    have hjoin : joinNL (l0 :: rest) ≠ [] := by
      cases rest with
      | nil => simp at hcond
      | cons l1 rest2 =>
        rw [joinNL_cons_cons]
        intro hcontra
        rcases List.append_eq_nil.mp hcontra with ⟨_, h2⟩
        simp at h2
    refine ⟨rfl, ?_, fun _ => rfl⟩
    constructor
    · intro _
      exact ⟨hcond.1, List.length_pos.mp hcond.2⟩
    · intro _
      exact hjoin
  · rw [hpc, if_neg hcond]
    refine ⟨rfl, ?_, fun h => absurd rfl h⟩
    constructor
    · intro h
      exact absurd rfl h
    · rintro ⟨h1, h2⟩
      exact absurd ⟨h1, List.length_pos.mpr h2⟩ hcond

/-- Witness for claim C10 at the header-only payload: the id counts, the
contribution is empty. -/
theorem client_contribution_witness :
    (processClient (str "42\n")).fst = some 42 ∧
      (processClient (str "42\n")).snd = [] := by
  have h := client_contribution (str "42\n") (str "42") [[]] 42 (by decide) (by decide)
  refine ⟨h.1, ?_⟩
  by_contra hne
  have hc := h.2.1.mp hne
  simp at hc

end T2
